import Mathlib

/-!
Verification of the pino-roll rotating file sink.

Shallow embedding of the JavaScript/TypeScript sources (`lib/utils.js` and
the transport entry point).  JavaScript strings are modelled as `List Char`;
filesystem and date-library effects are modelled by explicit oracles passed
as parameters (directory listings, file birth times, `date-fns` parsing).
Each embedded definition mirrors one source function and keeps its name.
-/

/-- Decidable equality for `Except`, used to evaluate embedded functions on
concrete inputs. -/
instance {ε α : Type _} [DecidableEq ε] [DecidableEq α] : DecidableEq (Except ε α) :=
  fun x y =>
    match x, y with
    | Except.ok a, Except.ok b =>
      if h : a = b then isTrue (by simp [h]) else isFalse (by simp [h])
    | Except.error a, Except.error b =>
      if h : a = b then isTrue (by simp [h]) else isFalse (by simp [h])
    | Except.ok _, Except.error _ => isFalse (by simp)
    | Except.error _, Except.ok _ => isFalse (by simp)

namespace PinoRoll

/-- JavaScript strings are modelled as lists of characters. -/
abbrev JStr := List Char

/-- Model of `String.prototype.split(sep)` for a one-character separator:
`""` splits to `[""]`, separators delimit possibly-empty segments. -/
def splitOnChar (sep : Char) : JStr → List JStr
  | [] => [[]]
  | c :: rest =>
    let r := splitOnChar sep rest
    if c = sep then [] :: r
    else
      match r with
      | [] => [[c]]
      | h :: t => (c :: h) :: t

/-- Model of `Array.prototype.join(sep)` for a one-character separator. -/
def joinChar (sep : Char) : List JStr → JStr
  | [] => []
  | [x] => x
  | x :: xs => x ++ sep :: joinChar sep xs

/-- Numeric value of a decimal digit character. -/
def digitVal (c : Char) : Nat := c.toNat - 48

/-- Decimal value of a digit string, as accumulated left to right. -/
def decimalValue (s : JStr) : Nat := s.foldl (fun a c => a * 10 + digitVal c) 0

/-- Fuel-driven accumulator producing the decimal digits of `n` (the fuel is
always sufficient when it exceeds `n`, see `natToDecimal`). -/
def natToDecimalGo : Nat → Nat → JStr → JStr
  | 0, _, acc => acc
  | fuel + 1, n, acc =>
    let d := Char.ofNat (48 + n % 10)
    if n < 10 then d :: acc
    else natToDecimalGo fuel (n / 10) (d :: acc)

/-- Model of JavaScript number-to-string conversion (template literal
`${n}`) for a non-negative integer: its decimal representation. -/
def natToDecimal (n : Nat) : JStr := natToDecimalGo (n + 1) n []

/-- The ECMA-262 `StrWhiteSpaceChar` set trimmed by `Number(string)`:
whitespace (tab, VT, FF, space, NBSP, Ogham space, the Zs range
U+2000–U+200A, narrow no-break and medium mathematical space, ideographic
space, BOM) and line terminators (LF, CR, LS, PS). -/
def isJsWhitespace (c : Char) : Bool :=
  (9 ≤ c.toNat ∧ c.toNat ≤ 13) ∨ c.toNat = 32 ∨ c.toNat = 160 ∨
  c.toNat = 0x1680 ∨ (0x2000 ≤ c.toNat ∧ c.toNat ≤ 0x200A) ∨
  c.toNat = 0x2028 ∨ c.toNat = 0x2029 ∨ c.toNat = 0x202F ∨
  c.toNat = 0x205F ∨ c.toNat = 0x3000 ∨ c.toNat = 0xFEFF

/-- The leading-and-trailing whitespace trim `Number(string)` performs. -/
def trimJs (s : JStr) : JStr :=
  ((s.dropWhile isJsWhitespace).reverse.dropWhile isJsWhitespace).reverse

/-- Hexadecimal digit value, `none` for other characters. -/
def hexVal (c : Char) : Option Nat :=
  if c.isDigit then some (c.toNat - 48)
  else if 'a' ≤ c ∧ c ≤ 'f' then some (c.toNat - 87)
  else if 'A' ≤ c ∧ c ≤ 'F' then some (c.toNat - 55)
  else none

/-- Octal digit value, `none` for other characters. -/
def octVal (c : Char) : Option Nat :=
  if '0' ≤ c ∧ c ≤ '7' then some (c.toNat - 48) else none

/-- Binary digit value, `none` for other characters. -/
def binVal (c : Char) : Option Nat :=
  if c = '0' then some 0 else if c = '1' then some 1 else none

/-- Value of a non-empty digit string in the given radix, `none` when empty
or containing an out-of-radix character (the `0x`/`0o`/`0b` literal
bodies). -/
def radixValue (dval : Char → Option Nat) (radix : Nat) (l : JStr) : Option Nat :=
  if l ≠ [] ∧ l.all (fun c => (dval c).isSome) then
    some (l.foldl (fun a c => a * radix + (dval c).getD 0) 0)
  else none

/-- Split a decimal literal at its first exponent marker `e`/`E`; the second
component is `none` when there is no exponent part. -/
def splitExponent : JStr → JStr × Option JStr
  | [] => ([], none)
  | c :: rest =>
    if c = 'e' ∨ c = 'E' then ([], some rest)
    else
      let r := splitExponent rest
      (c :: r.1, r.2)

/-- The `StrUnsignedDecimalLiteral` mantissa without its exponent:
`digits`, `digits.digits?` or `.digits` — returned as the combined digit
value together with the fraction length, so the mantissa's exact value is
`value * 10 ^ (-fractionLength)`.  `none` is `NaN`. -/
def decMantParts (l : JStr) : Option (Nat × Nat) :=
  match splitOnChar '.' l with
  | [w] => if w ≠ [] ∧ w.all Char.isDigit then some (decimalValue w, 0) else none
  | [i, f] =>
    if (i ≠ [] ∨ f ≠ []) ∧ i.all Char.isDigit ∧ f.all Char.isDigit then
      some (decimalValue (i ++ f), f.length)
    else none
  | _ => none

/-- The `SignedInteger` exponent part: an optional sign followed by one or
more decimal digits. -/
def expValue (l : JStr) : Option Int :=
  if l.head? = some '-' then
    if l.tail ≠ [] ∧ l.tail.all Char.isDigit then
      some (-(decimalValue l.tail : Int))
    else none
  else if l.head? = some '+' then
    if l.tail ≠ [] ∧ l.tail.all Char.isDigit then
      some ((decimalValue l.tail : Int))
    else none
  else if l ≠ [] ∧ l.all Char.isDigit then some ((decimalValue l : Int))
  else none

/-- An unsigned decimal literal (mantissa and optional exponent) as an exact
scaled integer: `some (m, e)` denotes the value `m * 10 ^ e`. -/
def decNumber (body : JStr) : Option (Int × Int) :=
  let me := splitExponent body
  match decMantParts me.1, me.2 with
  | some mf, none => some ((mf.1 : Int), -(mf.2 : Int))
  | some mf, some ex =>
    (expValue ex).map (fun e => ((mf.1 : Int), e - (mf.2 : Int)))
  | none, _ => none

/-- `m * 10 ^ e` when that value is an integer (the `Number.isInteger`
test under exact arithmetic), `none` otherwise. -/
def scaledToInt (m e : Int) : Option Int :=
  if 0 ≤ e then some (m * 10 ^ e.toNat)
  else if m % 10 ^ (-e).toNat = 0 then some (m / 10 ^ (-e).toNat)
  else none

/-- Model of the composite `Number(s)` + `Number.isInteger` check the
source applies to filename segments, following the ECMA-262
`StringNumericLiteral` grammar: surrounding whitespace is trimmed, the
empty remainder converts to `0`, `0x`/`0o`/`0b` literals convert in their
radix, and otherwise an optional sign precedes `Infinity` (never an
integer) or a decimal literal with optional fraction and exponent, whose
exact value passes only when integral.  Values are exact, per this
development's idealisation of JavaScript floats: double rounding beyond
2^53 and overflow to `Infinity` (which real `Number.isInteger` rejects)
are idealised away.  `none` covers `NaN`, `±Infinity` and non-integral
values, all of which the source rejects. -/
def jsNumberAsInt (s : JStr) : Option Int :=
  let t := trimJs s
  if t = [] then some 0
  else if t.take 2 = ['0', 'x'] ∨ t.take 2 = ['0', 'X'] then
    (radixValue hexVal 16 (t.drop 2)).map (fun n => (n : Int))
  else if t.take 2 = ['0', 'o'] ∨ t.take 2 = ['0', 'O'] then
    (radixValue octVal 8 (t.drop 2)).map (fun n => (n : Int))
  else if t.take 2 = ['0', 'b'] ∨ t.take 2 = ['0', 'B'] then
    (radixValue binVal 2 (t.drop 2)).map (fun n => (n : Int))
  else
    let sb : Int × JStr :=
      if t.head? = some '-' then (-1, t.tail)
      else if t.head? = some '+' then (1, t.tail)
      else (1, t)
    if sb.2 = ['I', 'n', 'f', 'i', 'n', 'i', 't', 'y'] then none
    else
      match decNumber sb.2 with
      | some me => scaledToInt (sb.1 * me.1) me.2
      | none => none

/-- Source `extractFileName`: last segment of a path after splitting on
either separator (`fileName.split(/(\\|\/)/g).pop()`). -/
def extractFileName (fileName : JStr) : JStr :=
  (fileName.reverse.takeWhile (fun c => ¬ (c = '/' ∨ c = '\\'))).reverse

/-- Result record of `identifyLogFile` (source `LogFileInfo`). -/
structure LogFileInfo where
  fileName : JStr
  fileTime : Int
  fileNumber : Int
deriving DecidableEq, Repr

/-- The source's `extension.startsWith('.') ? extension.slice(1) : extension`. -/
def stripLeadingDot (e : JStr) : JStr :=
  if e.head? = some '.' then e.tail else e

/-- Source `buildFileName` (`lib/utils.js`).  The base path is the already
resolved string (`getFileName` on a plain string is the identity); `date` and
`extension` are `undefined` when absent.  JavaScript truthiness makes an
empty date string behave like an absent one. -/
def buildFileName (base : JStr) (date : Option JStr) (lastNumber : Nat)
    (extension : Option JStr) : JStr :=
  let dateStr : JStr := match date with
    | some d => if d = [] then [] else '.' :: d
    | none => []
  let extensionStr : JStr := match extension with
    | some e => if e.head? = some '.' then e else '.' :: e
    | none => []
  base ++ dateStr ++ '.' :: natToDecimal lastNumber ++ extensionStr

/-- Source `identifyLogFile` (`lib/utils.js`).  `parseFmt fmt s` is an oracle
for the external `date-fns` combination `parse(s, fmt, new Date())` followed
by `isValid`/`getTime`: `some t` when `s` parses under `fmt` to epoch-ms `t`,
`none` when the parse is invalid.  Returns `none` where the source returns
`false`. -/
def identifyLogFile (parseFmt : JStr → JStr → Option Int)
    (checkedFileName baseFileNameStr : JStr)
    (dateFormat extension : Option JStr) : Option LogFileInfo :=
  if ¬ baseFileNameStr.isPrefixOf checkedFileName then none
  else
    let segments := splitOnChar '.' (checkedFileName.drop (baseFileNameStr.length + 1))
    let dfSet : Bool := match dateFormat with
      | some d => d ≠ []
      | none => false
    let extSet : Bool := match extension with
      | some e => e ≠ []
      | none => false
    let extensionStr : JStr := match extension with
      | some e => stripLeadingDot e
      | none => []
    let expected := 1 + (if dfSet then 1 else 0) + (if extSet then 1 else 0)
    if segments.length ≠ expected then none
    else
      let afterExt : Option (List JStr) :=
        if extensionStr ≠ [] then
          match segments.getLast? with
          | some chk => if chk = extensionStr then some segments.dropLast else none
          | none => none
        else some segments
      match afterExt with
      | none => none
      | some rest =>
        match rest.getLast? with
        | none => none
        | some chkFileNumber =>
          match jsNumberAsInt chkFileNumber with
          | none => none
          | some fileNumber =>
            if dfSet then
              match dateFormat with
              | some fmt =>
                match parseFmt fmt ((rest.dropLast).headD []) with
                | some t => some ⟨checkedFileName, t, fileNumber⟩
                | none => none
              | none => none
            else some ⟨checkedFileName, 0, fileNumber⟩

/-! ### Size policy (`parseSize`) -/

/-- The runtime type cases of the `size` option: `absent` stands for any
value that is neither a string nor a number (`undefined`, `null`, …),
`num` for a JavaScript number and `str` for a string.  JavaScript floats are
idealised as rationals. -/
inductive SizeInput
  | absent
  | num (q : ℚ)
  | str (s : JStr)

/-- A JavaScript number that is either `NaN` or an actual value. -/
inductive SizeVal
  | nan
  | val (q : ℚ)
deriving DecidableEq

/-- Return value of `parseSize`: `null` or a number of bytes. -/
inductive SizeResult
  | null
  | size (v : SizeVal)
deriving DecidableEq

/-- Character class `[\d.]` of the size regular expression. -/
def isDigitDot (c : Char) : Bool := c.isDigit || c = '.'

/-- Character class `\w` (`[A-Za-z0-9_]`). -/
def isWordChar (c : Char) : Bool := c.isAlpha || c.isDigit || c = '_'

/-- Match of `^([\d.]+)(\w?)$` under greedy semantics: either the whole
string is `[\d.]`-only (empty unit group), or all but a final word
character is. -/
def sizeRegexMatch (s : JStr) : Option (JStr × Option Char) :=
  if s ≠ [] ∧ s.all isDigitDot then some (s, none)
  else
    match s.getLast? with
    | some c =>
      if s.dropLast ≠ [] ∧ s.dropLast.all isDigitDot ∧ isWordChar c then
        some (s.dropLast, some c)
      else none
    | none => none

/-- Model of `Number(s)` for a non-empty string of digits and dots (the first
regex group): no dot gives the digits' value, a single dot gives an exact
decimal fraction, and `"."` alone or several dots give `NaN`. -/
def jsNumberOfDigitDot (s : JStr) : SizeVal :=
  match splitOnChar '.' s with
  | [w] => SizeVal.val (decimalValue w)
  | [i, f] =>
    if i = [] ∧ f = [] then SizeVal.nan
    else SizeVal.val ((decimalValue i : ℚ) + (decimalValue f : ℚ) / (10 : ℚ) ^ f.length)
  | _ => SizeVal.nan

/-- `NaN`-propagating multiplication. -/
def mulSizeVal (v : SizeVal) (m : ℚ) : SizeVal :=
  match v with
  | SizeVal.nan => SizeVal.nan
  | SizeVal.val q => SizeVal.val (q * m)

/-- Source `parseSize` (`lib/utils.js`): non-string non-number input gives
`null`; a number is multiplied by `1024 ^ 2`; a string must match
`^([\d.]+)(\w?)$` (otherwise the function throws, modelled by `error`) and is
scaled by the unit multiplier `g`/`k`/`b`, any other unit (including none
and `m`) meaning `1024 ^ 2`. -/
def parseSize : SizeInput → Except Unit SizeResult
  | SizeInput.absent => Except.ok SizeResult.null
  | SizeInput.num q => Except.ok (SizeResult.size (SizeVal.val (q * 1024 ^ 2)))
  | SizeInput.str s =>
    match sizeRegexMatch s with
    | some (numPart, unitChar) =>
      let unit := unitChar.map Char.toLower
      let multiplier : ℚ :=
        if unit = some 'g' then 1024 ^ 3
        else if unit = some 'k' then 1024
        else if unit = some 'b' then 1
        else 1024 ^ 2
      Except.ok (SizeResult.size (mulSizeVal (jsNumberOfDigitDot numPart) multiplier))
    | none => Except.error ()

/-! ### Base-path handling (`sanitizeFile`, `validateFileName`, thunks) -/

/-- The `file` option: a plain string or a thunk returning one. -/
inductive FileVal
  | str (s : JStr)
  | thunk (f : Unit → JStr)

/-- JavaScript truthiness of an optional string (`undefined` and `''` are
falsy). -/
def jsTruthyOpt : Option JStr → Bool
  | some e => e ≠ []
  | none => false

/-- Source `sanitizeFile` (`lib/utils.js`) after the thunk has been resolved
to the string `file`: rejects an empty path, appends the fallback stem `app`
when the last path segment is empty, peels the final `.`-suffix off the whole
path when the last segment contains a dot, and resolves the resulting
extension (`error` models the thrown `No file name provided`). -/
def sanitizeFileResolved (file : JStr) (extension : Option JStr) :
    Except Unit (JStr × Option JStr) :=
  if file = [] then Except.error ()
  else
    let currentFileName := extractFileName file
    let file1 := if currentFileName = [] then file ++ ['a', 'p', 'p'] else file
    let peeled : JStr × JStr :=
      if currentFileName.contains '.' then
        let fileParts := splitOnChar '.' file1
        (joinChar '.' fileParts.dropLast, (fileParts.getLast?).getD [])
      else (file1, [])
    let file2 := peeled.1
    let currentFileExtension := peeled.2
    let extension1 :=
      if ¬ jsTruthyOpt extension ∧ currentFileExtension = [] then some ['l', 'o', 'g']
      else if ¬ jsTruthyOpt extension ∧ currentFileExtension.length > 1 then
        some currentFileExtension
      else extension
    Except.ok (file2, extension1)

/-- Wrapper invoking the thunk exactly as the source does (`typeof file ===
'function'` check) and counting thunk invocations in the second component. -/
def sanitizeFile (file : FileVal) (extension : Option JStr) :
    Except Unit ((JStr × Option JStr) × Nat) :=
  match file with
  | FileVal.str s => (sanitizeFileResolved s extension).map (fun r => (r, 0))
  | FileVal.thunk f => (sanitizeFileResolved (f ()) extension).map (fun r => (r, 1))

/-- The characters rejected by `validateFileName` (`[<>"|?*\0]`). -/
def invalidPathChar (c : Char) : Bool :=
  c = '<' || c = '>' || c = '"' || c = '|' || c = '?' || c = '*' || c = Char.ofNat 0

/-- Source `validateFileName` (`lib/utils.js`): resolves a thunk, rejects an
empty path, masks a leading Windows drive letter, then rejects dangerous
characters and any remaining colon.  The result counts how often the thunk
was invoked. -/
def validateFileName (filepath : FileVal) : Except Unit Nat :=
  let resolved : JStr × Nat := match filepath with
    | FileVal.str s => (s, 0)
    | FileVal.thunk f => (f (), 1)
  let p := resolved.1
  if p = [] then Except.error ()
  else
    let hasDrive := (p.headD ' ').isAlpha ∧ p.tail.head? = some ':'
    let pathToCheck :=
      if hasDrive then ['[', 'D', 'R', 'I', 'V', 'E', ']'] ++ p.drop 2 else p
    if pathToCheck.any invalidPathChar then Except.error ()
    else if pathToCheck.any (fun c => c = ':') then Except.error ()
    else Except.ok resolved.2

/-! ### Directory scanner (`detectLastNumber`) -/

/-- Source `extractTrailingNumber` (`lib/utils.js`): normalise the extension
with a leading dot, require it as a suffix when non-empty, strip it, and read
the maximal run of trailing decimal digits (`/(\d+)$/`). -/
def extractTrailingNumber (fileName : JStr) (fileExtension : JStr) : Option Nat :=
  let normalizedFileExtension :=
    if fileExtension ≠ [] ∧ fileExtension.head? ≠ some '.' then '.' :: fileExtension
    else fileExtension
  let extLength := normalizedFileExtension.length
  if extLength > 0 ∧ ¬ normalizedFileExtension.isSuffixOf fileName then none
  else
    let fileNameWithoutExtension := fileName.take (fileName.length - extLength)
    let trailing := (fileNameWithoutExtension.reverse.takeWhile Char.isDigit).reverse
    if trailing ≠ [] then some (decimalValue trailing) else none

/-- Source `isMatchingTime`: the file's birth time (an oracle here) is at
least `time`. -/
def isMatchingTime (birth : JStr → Int) (file : JStr) (time : Int) : Bool :=
  birth file ≥ time

/-- Source `readFileTrailingNumbers`: fold over the directory listing,
starting from `[1]`, keeping birth-time-matching entries whose extracted
trailing number is truthy (so an extracted `0` is skipped).  A `time` of `0`
is falsy and disables the filter, as in the source. -/
def readFileTrailingNumbers (listing : List JStr) (time : Option Int)
    (birth : JStr → Int) (fileExtension : JStr) : List Nat :=
  listing.foldl (fun numbers file =>
    let timeTruthy : Bool := match time with
      | some t => t ≠ 0
      | none => false
    if timeTruthy ∧ ¬ isMatchingTime birth file (time.getD 0) then numbers
    else
      match extractTrailingNumber file fileExtension with
      | some k => if k ≠ 0 then numbers ++ [k] else numbers
      | none => numbers) [1]

/-- Source `detectLastNumber`: `none` for the listing models a failing
`readdir` (caught, returning 1); otherwise the numbers are sorted
descending (`sort((a, b) => b - a)`) and the first is returned. -/
def detectLastNumber (listingOpt : Option (List JStr)) (time : Option Int)
    (birth : JStr → Int) (fileExtension : JStr) : Nat :=
  match listingOpt with
  | none => 1
  | some listing =>
    (List.insertionSort (fun a b : Nat => b ≤ a)
      (readFileTrailingNumbers listing time birth fileExtension)).headD 1

/-! ### Retention manager (`removeOldFiles`, `unlinkWithRetry`) -/

/-- The ascending order used by the retention comparator
`(i, j) => i.fileTime === j.fileTime ? i.fileNumber - j.fileNumber
: i.fileTime - j.fileTime`. -/
def infoLe (i j : LogFileInfo) : Prop :=
  i.fileTime < j.fileTime ∨ (i.fileTime = j.fileTime ∧ i.fileNumber ≤ j.fileNumber)

instance : DecidableRel infoLe := fun i j => by
  unfold infoLe; infer_instance

instance : IsTotal LogFileInfo infoLe :=
  ⟨fun i j => by unfold infoLe; omega⟩

instance : IsTrans LogFileInfo infoLe :=
  ⟨fun i j k hij hjk => by unfold infoLe at *; omega⟩

/-- Effect summary of one `removeOldFiles` call: the file names handed to
`unlinkWithRetry` in order, and the final contents of the caller's
`createdFileNames` array. -/
structure RemoveOldOutcome where
  deleted : List JStr
  createdFileNames : List JStr
deriving DecidableEq, Repr

/-- Source `removeOldFiles` (`lib/utils.js`) as a pure function of the
directory listing (`readdir` of the base file's folder, used only in the
`removeOtherLogFiles` mode).  In the default mode the new file name is
pushed and the front of `createdFileNames` is spliced off once it exceeds
`count`, keeping `count + 1` entries.  In the other mode the listing is
filtered through `identifyLogFile` against the base file's last path
segment, sorted ascending by `(fileTime, fileNumber)` (JavaScript sorts are
stable, modelled by insertion sort), and all but the last `count` entries
are unlinked; the deletion paths are recorded by their directory-entry
names, the `join` with the folder prefix being elided. -/
def removeOldFiles (parseFmt : JStr → JStr → Option Int) (count : Nat)
    (removeOtherLogFiles : Bool) (baseFile : JStr)
    (dateFormat extension : Option JStr)
    (createdFileNames : List JStr) (newFileName : JStr)
    (listing : List JStr) : RemoveOldOutcome :=
  if ¬ removeOtherLogFiles then
    let created := createdFileNames ++ [newFileName]
    if created.length > count then
      let k := created.length - 1 - count
      ⟨created.take k, created.drop k⟩
    else ⟨[], created⟩
  else
    let baseFileNameStr := extractFileName baseFile
    let files := listing.foldl (fun acc fileEntry =>
      match identifyLogFile parseFmt fileEntry baseFileNameStr dateFormat extension with
      | some f => acc ++ [f]
      | none => acc) []
    let sorted := List.insertionSort infoLe files
    let deleted :=
      if files.length > count then
        (sorted.take (files.length - count)).map (fun f => f.fileName)
      else []
    ⟨deleted, createdFileNames⟩

/-- The retry loop of `unlinkWithRetry`, indexed by the remaining number of
iterations; `attemptFails i` is an oracle telling whether the `unlink` call
of iteration `i` throws.  The final failed attempt rethrows, an exhausted
loop returns normally (only reachable with zero retries). -/
def unlinkAttemptLoop (attemptFails : Nat → Bool) : Nat → Nat → Except Unit Unit
  | 0, _ => Except.ok ()
  | left + 1, attempt =>
    if attemptFails attempt then
      if left = 0 then Except.error ()
      else unlinkAttemptLoop attemptFails left (attempt + 1)
    else Except.ok ()

/-- Source `unlinkWithRetry` (`lib/utils.js`, default `maxRetries = 30`). -/
def unlinkWithRetry (attemptFails : Nat → Bool) (maxRetries : Nat := 30) :
    Except Unit Unit :=
  unlinkAttemptLoop attemptFails maxRetries 0

/-- `Promise.allSettled`: collects every settlement result and always
fulfills — it never rejects, whatever the individual promises did. -/
def promiseAllSettled (ps : List (Except Unit Unit)) : List (Except Unit Unit) := ps

/-- One asynchronous run of `removeOldFiles` as awaited by `roll`: the
outcome together with the settlement list of the per-file
`unlinkWithRetry` promises.  The promise itself rejects only when `readdir`
throws in the `removeOtherLogFiles` mode (`listingOpt = none`); unlink
rejections are absorbed by `Promise.allSettled`. -/
def removeOldFilesRun (parseFmt : JStr → JStr → Option Int) (count : Nat)
    (removeOtherLogFiles : Bool) (baseFile : JStr)
    (dateFormat extension : Option JStr)
    (createdFileNames : List JStr) (newFileName : JStr)
    (listingOpt : Option (List JStr)) (attemptFails : JStr → Nat → Bool)
    (maxRetries : Nat) : Except Unit (RemoveOldOutcome × List (Except Unit Unit)) :=
  if ¬ removeOtherLogFiles then
    let out := removeOldFiles parseFmt count false baseFile dateFormat extension
      createdFileNames newFileName []
    Except.ok (out, promiseAllSettled
      (out.deleted.map (fun f => unlinkWithRetry (attemptFails f) maxRetries)))
  else
    match listingOpt with
    | none => Except.error ()
    | some listing =>
      let out := removeOldFiles parseFmt count true baseFile dateFormat extension
        createdFileNames newFileName listing
      Except.ok (out, promiseAllSettled
        (out.deleted.map (fun f => unlinkWithRetry (attemptFails f) maxRetries)))

/-- Events the engine emits on the sink for one retention run. -/
inductive SinkEvent
  | cleanupComplete
  | errorEvent
deriving DecidableEq, Repr

/-- The `roll` continuation of the retention promise (transport entry
point): `.then(() => emit('cleanup-complete')).catch(e => emit('error', e))`. -/
def rollCleanupEvents
    (res : Except Unit (RemoveOldOutcome × List (Except Unit Unit))) :
    List SinkEvent :=
  match res with
  | Except.ok _ => [SinkEvent.cleanupComplete]
  | Except.error _ => [SinkEvent.errorEvent]

/-! ### Rotation engine state and the size trigger -/

/-- The engine's mutable closure variables touched by the `write` handler. -/
structure EngineState where
  number : Nat
  fileName : JStr
  currentSize : Nat
  isRolling : Bool
deriving DecidableEq, Repr

/-- The `write`-event handler installed when a size limit is configured
(transport entry point): one state transition per `write(writtenSize)`
event.  The boolean reports whether `roll` was invoked. -/
def onWrite (maxSize : Nat) (file : JStr) (date : Option JStr)
    (extension : Option JStr) (st : EngineState) (writtenSize : Nat) :
    EngineState × Bool :=
  let newSize := st.currentSize + writtenSize
  if newSize ≥ maxSize ∧ st.isRolling = false then
    let nextNumber := st.number + 1
    (⟨nextNumber, buildFileName file date nextNumber extension, 0, true⟩, true)
  else ({ st with currentSize := newSize }, false)

/-! ### Symlink manager (`checkSymlink` / `createSymlink`) -/

/-- State of the `current.log` link path on disk, as observed via `lstat`
and `readlink`. -/
inductive FsEntry
  | absent
  | file
  | symlinkTo (target : JStr)
deriving DecidableEq, Repr

/-- Source `checkSymlink` (both the promise and the sync variant share this
logic): report whether a symlink should be created, together with the state
of the link path afterwards (a stale symlink to another basename is
unlinked; anything else is left alone). -/
def checkSymlink (entry : FsEntry) (fileName : JStr) : Bool × FsEntry :=
  match entry with
  | FsEntry.absent => (true, FsEntry.absent)
  | FsEntry.file => (true, FsEntry.file)
  | FsEntry.symlinkTo target =>
    if extractFileName target = extractFileName fileName then (false, FsEntry.symlinkTo target)
    else (true, FsEntry.absent)

/-- Failure of the `symlink` syscall. -/
inductive FsError
  | eexist
deriving DecidableEq, Repr

/-- Source `createSymlink`/`createSymlinkSync`: run `checkSymlink` for the
sibling `current.log` path and, when asked to, attempt the `symlink`
syscall, which fails with `EEXIST` whenever the link path still exists.
Returns the call's result and the final state of the link path. -/
def createSymlinkRun (entry : FsEntry) (fileVal : JStr) :
    Except FsError Unit × FsEntry :=
  let checked := checkSymlink entry fileVal
  if checked.1 then
    match checked.2 with
    | FsEntry.absent => (Except.ok (), FsEntry.symlinkTo (extractFileName fileVal))
    | e => (Except.error FsError.eexist, e)
  else (Except.ok (), checked.2)

/-! ### Construction sequence (transport entry point) -/

/-- The construction-time values relevant to base-path handling. -/
structure SetupModel where
  thunkCalls : Nat
  file : JStr
  extension : Option JStr
  fileName : JStr
deriving DecidableEq, Repr

/-- The construction sequence of the transport entry point restricted to
base-path handling: `validateFileName(file)`, `sanitizeFile(file,
extension)`, `detectLastNumber` on the sanitized string, then the initial
`buildFileName`.  `date` stands for the already-computed `parseDate` result
and `listingOpt`/`time`/`birth` for the directory oracle of
`detectLastNumber`.  `thunkCalls` accumulates how often a `file` thunk was
invoked. -/
def pinoRollSetup (file : FileVal) (extension : Option JStr)
    (date : Option JStr) (listingOpt : Option (List JStr)) (time : Option Int)
    (birth : JStr → Int) : Except Unit SetupModel := do
  let c1 ← validateFileName file
  let sanitized ← sanitizeFile file extension
  let file1 := sanitized.1.1
  let extension1 := sanitized.1.2
  let number := detectLastNumber listingOpt time birth (extension1.getD [])
  let fileName := buildFileName file1 date number extension1
  return ⟨c1 + sanitized.2, file1, extension1, fileName⟩

/-! ### Basic lemmas about the string model -/

theorem natToDecimalGo_append (fuel : Nat) : ∀ (n : Nat) (acc : JStr),
    natToDecimalGo fuel n acc = natToDecimalGo fuel n [] ++ acc := by
  induction fuel with
  | zero => intro n acc; rfl
  | succ fuel ih =>
    intro n acc
    by_cases h : n < 10
    · simp [natToDecimalGo, h]
    · simp only [natToDecimalGo, if_neg h]
      rw [ih (n / 10) (Char.ofNat (48 + n % 10) :: acc),
        ih (n / 10) [Char.ofNat (48 + n % 10)]]
      simp

theorem isDigit_digitChar {k : Nat} (h : k < 10) :
    (Char.ofNat (48 + k)).isDigit = true := by
  interval_cases k <;> decide

theorem digitVal_digitChar {k : Nat} (h : k < 10) :
    digitVal (Char.ofNat (48 + k)) = k := by
  interval_cases k <;> decide

theorem natToDecimalGo_digits (fuel : Nat) : ∀ (n : Nat),
    ∀ c ∈ natToDecimalGo fuel n [], c.isDigit = true := by
  induction fuel with
  | zero => intro n c hc; simp [natToDecimalGo] at hc
  | succ fuel ih =>
    intro n c hc
    by_cases h : n < 10
    · simp only [natToDecimalGo, if_pos h] at hc
      simp at hc
      subst hc
      exact isDigit_digitChar (by omega)
    · simp only [natToDecimalGo, if_neg h] at hc
      rw [natToDecimalGo_append] at hc
      rcases List.mem_append.mp hc with h1 | h1
      · exact ih _ c h1
      · simp at h1
        subst h1
        exact isDigit_digitChar (Nat.mod_lt _ (by omega))

theorem natToDecimalGo_ne_nil (fuel n : Nat) :
    natToDecimalGo (fuel + 1) n [] ≠ [] := by
  by_cases h : n < 10
  · simp [natToDecimalGo, h]
  · simp only [natToDecimalGo, if_neg h]
    rw [natToDecimalGo_append]
    simp

theorem decimalValue_append (l₁ l₂ : JStr) :
    decimalValue (l₁ ++ l₂) =
      l₂.foldl (fun a c => a * 10 + digitVal c) (decimalValue l₁) := by
  simp [decimalValue, List.foldl_append]

theorem natToDecimalGo_val (fuel : Nat) : ∀ n : Nat, n < fuel →
    decimalValue (natToDecimalGo fuel n []) = n := by
  induction fuel with
  | zero => intro n h; omega
  | succ fuel ih =>
    intro n h
    by_cases h10 : n < 10
    · simp only [natToDecimalGo, if_pos h10]
      simp [decimalValue, Nat.mod_eq_of_lt h10, digitVal_digitChar h10]
    · simp only [natToDecimalGo, if_neg h10]
      rw [natToDecimalGo_append, decimalValue_append]
      have hdiv : n / 10 < fuel := by
        have := Nat.div_lt_self (show 0 < n by omega) (show 1 < 10 by omega)
        omega
      simp [ih (n / 10) hdiv, digitVal_digitChar (show n % 10 < 10 by omega)]
      omega

theorem natToDecimal_ne_nil (n : Nat) : natToDecimal n ≠ [] :=
  natToDecimalGo_ne_nil n n

theorem natToDecimal_digits (n : Nat) :
    ∀ c ∈ natToDecimal n, c.isDigit = true :=
  natToDecimalGo_digits (n + 1) n

theorem decimalValue_natToDecimal (n : Nat) :
    decimalValue (natToDecimal n) = n :=
  natToDecimalGo_val (n + 1) n (by omega)

theorem ne_of_isDigit {c x : Char} (h : c.isDigit = true) (hx : x.isDigit = false) :
    c ≠ x := by
  intro hc
  subst hc
  rw [h] at hx
  exact Bool.noConfusion hx

theorem dot_not_mem_natToDecimal (n : Nat) : '.' ∉ natToDecimal n := by
  intro h
  have := natToDecimal_digits n _ h
  exact absurd this (by decide)

theorem splitOnChar_not_mem {sep : Char} : ∀ {l : JStr}, sep ∉ l →
    splitOnChar sep l = [l] := by
  intro l
  induction l with
  | nil => intro _; rfl
  | cons c rest ih =>
    intro h
    have hc : ¬ c = sep := fun hcs => h (hcs ▸ List.mem_cons_self _ _)
    have h' : sep ∉ rest := fun hm => h (List.mem_cons_of_mem _ hm)
    simp [splitOnChar, hc, ih h']

theorem splitOnChar_append {sep : Char} : ∀ {l₁ : JStr} (l₂ : JStr), sep ∉ l₁ →
    splitOnChar sep (l₁ ++ sep :: l₂) = l₁ :: splitOnChar sep l₂ := by
  intro l₁
  induction l₁ with
  | nil => intro l₂ _; simp [splitOnChar]
  | cons c rest ih =>
    intro l₂ h
    have hc : ¬ c = sep := fun hcs => h (hcs ▸ List.mem_cons_self _ _)
    have h' : sep ∉ rest := fun hm => h (List.mem_cons_of_mem _ hm)
    simp [splitOnChar, hc, ih l₂ h']

theorem dropWhile_eq_self {p : Char → Bool} {l : JStr}
    (h : ∀ c ∈ l, p c = false) : l.dropWhile p = l := by
  cases l with
  | nil => rfl
  | cons c rest => simp [List.dropWhile_cons, h c (List.mem_cons_self _ _)]

theorem trimJs_eq_self {l : JStr} (h : ∀ c ∈ l, isJsWhitespace c = false) :
    trimJs l = l := by
  unfold trimJs
  rw [dropWhile_eq_self h,
    dropWhile_eq_self (fun c hc => h c (List.mem_reverse.mp hc)),
    List.reverse_reverse]

theorem isJsWhitespace_eq_false_of_isDigit {c : Char} (h : c.isDigit = true) :
    isJsWhitespace c = false := by
  simp [Char.isDigit, Char.toNat, UInt32.le_def, BitVec.le_def,
    UInt32.toNat] at h
  simp [isJsWhitespace, Char.toNat, UInt32.toNat]
  omega

theorem splitExponent_no_e : ∀ {l : JStr}, (∀ c ∈ l, c ≠ 'e' ∧ c ≠ 'E') →
    splitExponent l = (l, none) := by
  intro l
  induction l with
  | nil => intro _; rfl
  | cons c rest ih =>
    intro h
    have hc := h c (List.mem_cons_self _ _)
    simp [splitExponent, hc.1, hc.2,
      ih (fun x hx => h x (List.mem_cons_of_mem _ hx))]

/-- On a non-empty digit string, the `Number` model agrees with the plain
decimal value: there is nothing to trim, no radix prefix, sign, infinity or
exponent, and the value is already integral. -/
theorem jsNumberAsInt_digits (s : JStr) (hne : s ≠ [])
    (hdig : ∀ c ∈ s, c.isDigit = true) :
    jsNumberAsInt s = some ((decimalValue s : Int)) := by
  have htrim : trimJs s = s :=
    trimJs_eq_self (fun c hc => isJsWhitespace_eq_false_of_isDigit (hdig c hc))
  have hsnd : ∀ x : Char, x.isDigit = false → ¬ s.take 2 = ['0', x] := by
    intro x hx h
    have hmem : x ∈ s := List.take_subset 2 s (by rw [h]; simp)
    rw [hdig x hmem] at hx
    exact Bool.noConfusion hx
  have hhead : ∀ x : Char, x.isDigit = false → ¬ s.head? = some x := by
    intro x hx h
    have hmem : x ∈ s := by
      cases hs : s with
      | nil => rw [hs] at h; exact Option.noConfusion h
      | cons c t =>
        rw [hs] at h
        simp only [List.head?_cons, Option.some.injEq] at h
        rw [h]
        exact List.mem_cons_self _ _
    rw [hdig x hmem] at hx
    exact Bool.noConfusion hx
  have hinf : ¬ s = ['I', 'n', 'f', 'i', 'n', 'i', 't', 'y'] := by
    intro h
    have hmem : 'I' ∈ s := by rw [h]; simp
    exact absurd (hdig _ hmem) (by decide)
  have hexp : splitExponent s = (s, none) :=
    splitExponent_no_e (fun c hc =>
      ⟨ne_of_isDigit (hdig c hc) (by decide),
       ne_of_isDigit (hdig c hc) (by decide)⟩)
  have hdot : '.' ∉ s := fun hm => absurd (hdig _ hm) (by decide)
  have hmant : decMantParts s = some (decimalValue s, 0) := by
    unfold decMantParts
    rw [splitOnChar_not_mem hdot]
    simp [hne, List.all_eq_true.mpr hdig]
  have hdec : decNumber s = some ((decimalValue s : Int), -((0 : Nat) : Int)) := by
    unfold decNumber
    rw [hexp]
    simp [hmant]
  unfold jsNumberAsInt
  rw [htrim]
  rw [if_neg hne,
    if_neg (by rintro (h | h) <;> exact hsnd _ (by decide) h),
    if_neg (by rintro (h | h) <;> exact hsnd _ (by decide) h),
    if_neg (by rintro (h | h) <;> exact hsnd _ (by decide) h)]
  rw [if_neg (hhead '-' (by decide)), if_neg (hhead '+' (by decide))]
  rw [if_neg hinf, hdec]
  unfold scaledToInt
  norm_num

theorem jsNumberAsInt_natToDecimal (n : Nat) :
    jsNumberAsInt (natToDecimal n) = some (n : Int) := by
  rw [jsNumberAsInt_digits (natToDecimal n) (natToDecimal_ne_nil n)
    (natToDecimal_digits n), decimalValue_natToDecimal]

theorem isPrefixOf_append_self (l t : JStr) : l.isPrefixOf (l ++ t) = true := by
  induction l with
  | nil => simp [List.isPrefixOf]
  | cons c rest ih => simp [List.isPrefixOf, ih]

theorem drop_append_cons (base rest : JStr) (c : Char) :
    (base ++ c :: rest).drop (base.length + 1) = rest := by
  have h : base ++ c :: rest = (base ++ [c]) ++ rest := by simp
  have hl : (base ++ [c]).length = base.length + 1 := by simp
  rw [h, ← hl, List.drop_left]

/-! ### How `identifyLogFile` evaluates on names of the composed shape -/

theorem identify_pattern_plain (pf : JStr → JStr → Option Int) (base s : JStr)
    (hdots : '.' ∉ s) :
    identifyLogFile pf (base ++ '.' :: s) base none none
      = (jsNumberAsInt s).map (fun k => ⟨base ++ '.' :: s, 0, k⟩) := by
  unfold identifyLogFile
  rw [if_neg (by simp [isPrefixOf_append_self])]
  simp only [drop_append_cons, splitOnChar_not_mem hdots]
  simp
  cases h : jsNumberAsInt s <;> simp [h]

theorem identify_pattern_ext (pf : JStr → JStr → Option Int) (base s e : JStr)
    (hdots : '.' ∉ s) (hse : stripLeadingDot e ≠ [])
    (hde : '.' ∉ stripLeadingDot e) :
    identifyLogFile pf (base ++ '.' :: (s ++ '.' :: stripLeadingDot e)) base
      none (some e)
      = (jsNumberAsInt s).map
          (fun k => ⟨base ++ '.' :: (s ++ '.' :: stripLeadingDot e), 0, k⟩) := by
  have he : e ≠ [] := by
    intro h
    exact hse (by simp [h, stripLeadingDot])
  unfold identifyLogFile
  rw [if_neg (by simp [isPrefixOf_append_self])]
  simp only [drop_append_cons, splitOnChar_append _ hdots,
    splitOnChar_not_mem hde]
  simp [he, hse]
  cases h : jsNumberAsInt s <;> simp [h]

theorem identify_pattern_df (pf : JStr → JStr → Option Int)
    (base d s fmt : JStr) (hdotd : '.' ∉ d) (hdots : '.' ∉ s)
    (hfmt : fmt ≠ []) :
    identifyLogFile pf (base ++ '.' :: (d ++ '.' :: s)) base (some fmt) none
      = (jsNumberAsInt s).bind (fun k =>
          (pf fmt d).map (fun t => ⟨base ++ '.' :: (d ++ '.' :: s), t, k⟩)) := by
  unfold identifyLogFile
  rw [if_neg (by simp [isPrefixOf_append_self])]
  simp only [drop_append_cons, splitOnChar_append _ hdotd,
    splitOnChar_not_mem hdots]
  simp [hfmt]
  cases h : jsNumberAsInt s <;> simp [h]
  cases hp : pf fmt d <;> simp [hp]

theorem identify_pattern_df_ext (pf : JStr → JStr → Option Int)
    (base d s e fmt : JStr) (hdotd : '.' ∉ d) (hdots : '.' ∉ s)
    (hse : stripLeadingDot e ≠ []) (hde : '.' ∉ stripLeadingDot e)
    (hfmt : fmt ≠ []) :
    identifyLogFile pf
      (base ++ '.' :: (d ++ '.' :: (s ++ '.' :: stripLeadingDot e))) base
      (some fmt) (some e)
      = (jsNumberAsInt s).bind (fun k =>
          (pf fmt d).map (fun t =>
            ⟨base ++ '.' :: (d ++ '.' :: (s ++ '.' :: stripLeadingDot e)), t, k⟩)) := by
  have he : e ≠ [] := by
    intro h
    exact hse (by simp [h, stripLeadingDot])
  unfold identifyLogFile
  rw [if_neg (by simp [isPrefixOf_append_self])]
  simp only [drop_append_cons, splitOnChar_append _ hdotd,
    splitOnChar_append _ hdots, splitOnChar_not_mem hde]
  simp [he, hse, hfmt]
  cases h : jsNumberAsInt s <;> simp [h]
  cases hp : pf fmt d <;> simp [hp]

/-! ### Shape of built file names -/

theorem buildExt_eq (e : JStr) :
    (if e.head? = some '.' then e else '.' :: e) = '.' :: stripLeadingDot e := by
  unfold stripLeadingDot
  cases e with
  | nil => simp
  | cons c t =>
    by_cases hc : c = '.'
    · simp [hc]
    · simp [hc]

theorem build_none_none (base : JStr) (n : Nat) :
    buildFileName base none n none = base ++ '.' :: natToDecimal n := by
  simp [buildFileName]

theorem build_none_ext (base e : JStr) (n : Nat) :
    buildFileName base none n (some e)
      = base ++ '.' :: (natToDecimal n ++ '.' :: stripLeadingDot e) := by
  simp [buildFileName, buildExt_eq]

theorem build_date_none (base d : JStr) (n : Nat) (hd : d ≠ []) :
    buildFileName base (some d) n none
      = base ++ '.' :: (d ++ '.' :: natToDecimal n) := by
  simp [buildFileName, hd]

theorem build_date_ext (base d e : JStr) (n : Nat) (hd : d ≠ []) :
    buildFileName base (some d) n (some e)
      = base ++ '.' :: (d ++ '.' :: (natToDecimal n ++ '.' :: stripLeadingDot e)) := by
  simp [buildFileName, hd, buildExt_eq]

theorem stripLeadingDot_of_head_ne (e : JStr) (h : e.head? ≠ some '.') :
    stripLeadingDot e = e := by
  simp [stripLeadingDot, h]

/-- `identifyLogFile` always reports the checked name itself. -/
theorem identify_fileName (pf : JStr → JStr → Option Int)
    (name base : JStr) (df ext : Option JStr) (i : LogFileInfo)
    (h : identifyLogFile pf name base df ext = some i) : i.fileName = name := by
  rcases df with _ | fmt <;> rcases ext with _ | e <;>
    simp only [identifyLogFile] at h
  all_goals
    simp only [ne_eq, not_true_eq_false, not_false_eq_true, if_false, if_true,
      Bool.false_eq_true, reduceIte, ite_false, ite_true] at h
  all_goals repeat' split at h
  all_goals
    first
      | (injection h with h; subst h; rfl)
      | exact Option.noConfusion h

theorem foldl_push_eq_filterMap {α β : Type _} (f : α → Option β) :
    ∀ (l : List α) (acc : List β),
      l.foldl (fun acc e =>
        match f e with
        | some x => acc ++ [x]
        | none => acc) acc = acc ++ l.filterMap f := by
  intro l
  induction l with
  | nil => intro acc; simp
  | cons e rest ih =>
    intro acc
    cases hf : f e <;> simp [List.foldl_cons, hf, ih]

/-! ### Claim theorems -/

/-- C1, amended: the name codec round-trips for every valid base, built
number `n ≥ 1`, date string produced by the configured date format (non-empty,
dot-free, parsing back under the format to epoch-ms `t`; `t = 0` when no
date format is configured) and extension that is either absent or non-empty
after peeling a leading dot (and dot-free): `identifyLogFile` accepts the
built name and recovers `fileNumber = n` and `fileTime = t`.  The original
claim also covered the empty-string extension, on which the round-trip
fails (see the counterexample). -/
theorem c1_roundtrip (pf : JStr → JStr → Option Int) (base : JStr) (n : Nat)
    (dateOpt fmtOpt extOpt : Option JStr) (t : Int)
    (hbase : base ≠ []) (hn : 1 ≤ n)
    (hdf : (dateOpt = none ∧ fmtOpt = none ∧ t = 0) ∨
      (∃ d fmt, dateOpt = some d ∧ fmtOpt = some fmt ∧ d ≠ [] ∧ '.' ∉ d
        ∧ fmt ≠ [] ∧ pf fmt d = some t))
    (hext : extOpt = none ∨ (∃ e, extOpt = some e ∧ stripLeadingDot e ≠ []
        ∧ '.' ∉ stripLeadingDot e)) :
    identifyLogFile pf (buildFileName base dateOpt n extOpt) base fmtOpt extOpt
      = some ⟨buildFileName base dateOpt n extOpt, t, (n : Int)⟩ := by
  rcases hdf with ⟨hd, hf, ht⟩ | ⟨d, fmt, hd, hf, hdne, hdotd, hfmt, hpf⟩ <;>
    rcases hext with he | ⟨e, he, hse, hde⟩ <;> subst_vars
  · rw [build_none_none, identify_pattern_plain pf base _ (dot_not_mem_natToDecimal n),
      jsNumberAsInt_natToDecimal]
    rfl
  · rw [build_none_ext, identify_pattern_ext pf base _ e (dot_not_mem_natToDecimal n) hse hde,
      jsNumberAsInt_natToDecimal]
    rfl
  · rw [build_date_none base d n hdne, identify_pattern_df pf base d _ fmt hdotd
      (dot_not_mem_natToDecimal n) hfmt, jsNumberAsInt_natToDecimal]
    simp [hpf]
  · rw [build_date_ext base d e n hdne, identify_pattern_df_ext pf base d _ e fmt hdotd
      (dot_not_mem_natToDecimal n) hse hde hfmt, jsNumberAsInt_natToDecimal]
    simp [hpf]

/-- C1, counterexample: with the empty-string extension — which the data
model allows — `buildFileName` appends a bare trailing dot, and
`identifyLogFile` (whose segment count treats the empty extension as
absent) rejects the very name that was just built, even under a date
oracle that parses the date segment.  The claimed round-trip equation
would require the result `some ⟨…, 1727308800000, 5⟩`. -/
theorem c1_roundtrip_cex :
    identifyLogFile (fun _ _ => some 1727308800000)
        (buildFileName ['f', 'i', 'l', 'e'] (some ['2', '0', '2', '4']) 5 (some []))
        ['f', 'i', 'l', 'e'] (some ['y', 'y', 'y', 'y']) (some [])
      = none := by decide

/-- C1, witness: the round-trip theorem applied at a concrete
base/date/number/extension. -/
theorem c1_roundtrip_witness :
    identifyLogFile (fun _ _ => some 99)
        (buildFileName ['f'] (some ['d', '1']) 3 (some ['l', 'g']))
        ['f'] (some ['y']) (some ['l', 'g'])
      = some ⟨buildFileName ['f'] (some ['d', '1']) 3 (some ['l', 'g']), 99, 3⟩ :=
  c1_roundtrip (fun _ _ => some 99) ['f'] 3 (some ['d', '1']) (some ['y'])
    (some ['l', 'g']) 99 (by decide) (by decide)
    (Or.inr ⟨['d', '1'], ['y'], rfl, rfl, by decide, by decide, by decide, rfl⟩)
    (Or.inr ⟨['l', 'g'], rfl, by decide, by decide⟩)

/-- C6, amended: on candidates of the composed shape
`base.number.extension`, `identifyLogFile` accepts exactly when the
next-to-last segment converts to an integer under `Number` +
`Number.isInteger` — which includes negative integers — and then reports
that integer as `fileNumber`; segments that are not integers are rejected.
The original claim said negative integers are rejected; the code only
checks `Number.isInteger`, which accepts them (see the counterexample). -/
theorem c6_numberValidation (pf : JStr → JStr → Option Int) (base s e : JStr)
    (hdots : '.' ∉ s) (he : e ≠ []) (hdote : '.' ∉ e)
    (hhead : e.head? ≠ some '.') :
    identifyLogFile pf (base ++ '.' :: (s ++ '.' :: e)) base none (some e)
      = (jsNumberAsInt s).map
          (fun k => ⟨base ++ '.' :: (s ++ '.' :: e), 0, k⟩) := by
  have hs := stripLeadingDot_of_head_ne e hhead
  have h := identify_pattern_ext pf base s e hdots
    (by rw [hs]; exact he) (by rw [hs]; exact hdote)
  rw [hs] at h
  exact h

/-- C6, counterexample: the candidate `file.-1.log` has the negative number
segment `-1`; the claim requires rejection, but `identifyLogFile` accepts
it with `fileNumber = -1`. -/
theorem c6_numberValidation_cex :
    identifyLogFile (fun _ _ => none)
        ['f', 'i', 'l', 'e', '.', '-', '1', '.', 'l', 'o', 'g']
        ['f', 'i', 'l', 'e'] none (some ['l', 'o', 'g'])
      = some ⟨['f', 'i', 'l', 'e', '.', '-', '1', '.', 'l', 'o', 'g'], 0, -1⟩
    ∧ (-1 : Int) < 0 := by decide

/-- C6, witness: the amended theorem applied at the negative segment
`-1`, evaluating to acceptance with `fileNumber = -1`. -/
theorem c6_numberValidation_witness :
    identifyLogFile (fun _ _ => none)
        (['f'] ++ '.' :: (['-', '1'] ++ '.' :: ['l', 'g'])) ['f'] none
        (some ['l', 'g'])
      = (jsNumberAsInt ['-', '1']).map
          (fun k => ⟨['f'] ++ '.' :: (['-', '1'] ++ '.' :: ['l', 'g']), 0, k⟩) :=
  c6_numberValidation (fun _ _ => none) ['f'] ['-', '1'] ['l', 'g']
    (by decide) (by decide) (by decide) (by decide)

/-- C2, confirmed: with a size limit configured, each `write(n)` event with
`new = currentSize + n` either triggers a rotation — when `new ≥ maxBytes`
and the engine is not already rolling: the number is incremented by exactly
one, the file name is rebuilt from `(base, date, number, extension)`,
`currentSize` is reset to `0` and `roll` is invoked immediately — or, in
every other case, only updates `currentSize` to `new`, leaving `number`
and `fileName` unchanged. -/
theorem c2_sizeTrigger (maxSize : Nat) (file : JStr)
    (date extension : Option JStr) (st : EngineState) (n : Nat)
    (hmax : 0 < maxSize) :
    (maxSize ≤ st.currentSize + n ∧ st.isRolling = false →
      onWrite maxSize file date extension st n
        = (⟨st.number + 1, buildFileName file date (st.number + 1) extension,
            0, true⟩, true))
    ∧ (¬ (maxSize ≤ st.currentSize + n ∧ st.isRolling = false) →
      onWrite maxSize file date extension st n
        = ({ st with currentSize := st.currentSize + n }, false)) := by
  constructor
  · intro h
    simp only [onWrite, ge_iff_le, if_pos h]
  · intro h
    simp only [onWrite, ge_iff_le, if_neg h]

/-- C2, witness: the size trigger evaluated in both branches at a concrete
state (15 + 6 ≥ 20 rolls; 10 + 6 < 20 only accumulates). -/
theorem c2_sizeTrigger_witness :
    onWrite 20 ['f'] none none ⟨3, ['f', '.', '3'], 15, false⟩ 6
      = (⟨4, buildFileName ['f'] none 4 none, 0, true⟩, true)
    ∧ onWrite 20 ['f'] none none ⟨3, ['f', '.', '3'], 10, false⟩ 6
      = (⟨3, ['f', '.', '3'], 16, false⟩, false) :=
  ⟨(c2_sizeTrigger 20 ['f'] none none ⟨3, ['f', '.', '3'], 15, false⟩ 6
      (by decide)).1 (by decide),
   (c2_sizeTrigger 20 ['f'] none none ⟨3, ['f', '.', '3'], 10, false⟩ 6
      (by decide)).2 (by decide)⟩

/-! ### C4: parseSize -/

/-- The unit multiplier of `parseSize` as a function of the matched unit
character (`match[2].toLowerCase()`). -/
def unitMultiplier (c : Char) : ℚ :=
  if c.toLower = 'g' then 1024 ^ 3
  else if c.toLower = 'k' then 1024
  else if c.toLower = 'b' then 1
  else 1024 ^ 2

theorem sizeRegexMatch_digits (s : JStr) (hs : s ≠ [])
    (hall : ∀ x ∈ s, isDigitDot x = true) :
    sizeRegexMatch s = some (s, none) := by
  simp [sizeRegexMatch, hs, List.all_eq_true.mpr hall]

theorem sizeRegexMatch_unit (s : JStr) (c : Char) (hs : s ≠ [])
    (hall : ∀ x ∈ s, isDigitDot x = true) (hw : isWordChar c = true)
    (hc : isDigitDot c = false) :
    sizeRegexMatch (s ++ [c]) = some (s, some c) := by
  unfold sizeRegexMatch
  rw [if_neg (by simp [List.all_append, hc])]
  rw [List.getLast?_concat, List.dropLast_concat]
  simp [hs, List.all_eq_true.mpr hall, hw]

theorem jsNumberOfDigitDot_digits (s : JStr)
    (hd : ∀ x ∈ s, x.isDigit = true) :
    jsNumberOfDigitDot s = SizeVal.val (decimalValue s) := by
  have hnd : '.' ∉ s := fun h => absurd (hd _ h) (by decide)
  simp [jsNumberOfDigitDot, splitOnChar_not_mem hnd]

/-- C4, amended: `parseSize` returns `null` exactly for non-string
non-number input; a number (and a digits-only string) is scaled by
`1024 ^ 2` (MB); a string matching `^([\d.]+)(\w?)$` is scaled by the unit
multiplier (`b` = 1, `k` = 1024, `g` = 1024³, case-insensitively, and
`1024 ^ 2` for `m`, no unit, or any other word character); every other
string — including the empty string, which the original claim said returns
`None` — is an error. -/
theorem c4_parseSize :
    parseSize SizeInput.absent = Except.ok SizeResult.null
    ∧ (∀ q : ℚ, parseSize (SizeInput.num q)
        = Except.ok (SizeResult.size (SizeVal.val (q * 1024 ^ 2))))
    ∧ parseSize (SizeInput.str []) = Except.error ()
    ∧ (∀ s : JStr, s ≠ [] → (∀ x ∈ s, x.isDigit = true) →
        parseSize (SizeInput.str s)
          = Except.ok (SizeResult.size
              (SizeVal.val ((decimalValue s : ℚ) * 1024 ^ 2))))
    ∧ (∀ (s : JStr) (c : Char), s ≠ [] → (∀ x ∈ s, isDigitDot x = true) →
        isWordChar c = true → isDigitDot c = false →
        parseSize (SizeInput.str (s ++ [c]))
          = Except.ok (SizeResult.size
              (mulSizeVal (jsNumberOfDigitDot s) (unitMultiplier c))))
    ∧ (∀ s : JStr, sizeRegexMatch s = none →
        parseSize (SizeInput.str s) = Except.error ()) := by
  refine ⟨rfl, fun q => rfl, rfl, ?_, ?_, ?_⟩
  · intro s hs hd
    have hdd : ∀ x ∈ s, isDigitDot x = true := fun x hx => by
      simp [isDigitDot, hd x hx]
    simp [parseSize, sizeRegexMatch_digits s hs hdd,
      jsNumberOfDigitDot_digits s hd, mulSizeVal]
  · intro s c hs hall hw hc
    simp only [parseSize, sizeRegexMatch_unit s c hs hall hw hc,
      Option.map_some, unitMultiplier]
    simp
  · intro s h
    simp [parseSize, h]

/-- C4, counterexample: the claim says absent or empty input returns
`None`; the code throws on the empty string (only non-string non-number
input gives `null`), as the repository's own tests pin
(`throws(() => parseSize(''))`). -/
theorem c4_parseSize_cex :
    parseSize (SizeInput.str []) = Except.error ()
    ∧ parseSize (SizeInput.str []) ≠ Except.ok SizeResult.null := by
  constructor <;> decide

/-- C4, witness: the amended theorem evaluated on a digits-only string and
on a unit-suffixed string. -/
theorem c4_parseSize_witness :
    parseSize (SizeInput.str ['1', '5'])
      = Except.ok (SizeResult.size
          (SizeVal.val ((decimalValue ['1', '5'] : ℚ) * 1024 ^ 2)))
    ∧ parseSize (SizeInput.str ['1', 'k'])
      = Except.ok (SizeResult.size
          (mulSizeVal (jsNumberOfDigitDot ['1']) (unitMultiplier 'k'))) :=
  ⟨c4_parseSize.2.2.2.1 ['1', '5'] (by decide) (by decide),
   c4_parseSize.2.2.2.2.1 ['1'] 'k' (by decide) (by decide) (by decide)
     (by decide)⟩

/-! ### C5: sanitizeFile extension resolution -/

/-- The final suffix peeled by `sanitizeFile`: defined (as a possibly empty
string) exactly when the path's last segment contains a dot, in which case
it is the part of the whole path after its last dot. -/
def peeledSuffix (file : JStr) : Option JStr :=
  if (extractFileName file).contains '.' then
    some (((splitOnChar '.' file).getLast?).getD [])
  else none

/-- C5, amended: `sanitizeFileResolved` resolves the extension to the
caller's extension when a non-empty one is given; otherwise to the peeled
final suffix when that has length ≥ 2; otherwise to the fallback `log` when
there is no peeled suffix at all or the peeled suffix is empty (trailing
dot).  But when the peeled suffix has exactly one character (as in
`file.a`), the extension is left as the absent caller extension — not the
claimed fallback `log` (see the counterexample). -/
theorem c5_sanitizeExt (file : JStr) (extension : Option JStr)
    (hf : file ≠ []) :
    (sanitizeFileResolved file extension).map (fun r => r.2)
      = Except.ok
          (if jsTruthyOpt extension then extension
           else
             match peeledSuffix file with
             | none => some ['l', 'o', 'g']
             | some p =>
               if p = [] then some ['l', 'o', 'g']
               else if 1 < p.length then some p
               else extension) := by
  unfold sanitizeFileResolved peeledSuffix
  rw [if_neg hf]
  by_cases hdot : (extractFileName file).contains '.' = true
  case pos =>
    have hne : ¬ extractFileName file = [] := by
      intro h
      rw [h] at hdot
      exact absurd hdot (by decide)
    simp only [hdot, hne, if_true, if_false, ite_true, ite_false, Except.map]
    rcases Bool.eq_false_or_eq_true (jsTruthyOpt extension) with htr | htr
    · simp only [htr, Bool.false_eq_true, not_false_eq_true, true_and, if_false,
        ite_false]
      by_cases hp : ((splitOnChar '.' file).getLast?).getD [] = [] <;>
        by_cases hl : 1 < (((splitOnChar '.' file).getLast?).getD []).length <;>
        simp [hp, hl]
    · simp [htr]
  case neg =>
    simp only [hdot, if_true, if_false, ite_true, ite_false, Except.map]
    rcases Bool.eq_false_or_eq_true (jsTruthyOpt extension) with htr | htr <;>
      simp [htr, hdot]

/-- C5, counterexample: `file.a` has a one-character peeled suffix and no
caller extension; the claim requires the fallback `log`, but the code
leaves the extension undefined. -/
theorem c5_sanitizeExt_cex :
    (sanitizeFileResolved ['f', 'i', 'l', 'e', '.', 'a'] none).map (fun r => r.2)
      = Except.ok none
    ∧ (sanitizeFileResolved ['f', 'i', 'l', 'e', '.', 'a'] none).map (fun r => r.2)
      ≠ Except.ok (some ['l', 'o', 'g']) := by
  constructor <;> decide

/-- C5, witness: the amended theorem evaluated at a path with a peeled
two-character suffix and no caller extension. -/
theorem c5_sanitizeExt_witness :
    (sanitizeFileResolved ['f', '.', 'a', 'b'] none).map (fun r => r.2)
      = Except.ok
          (if jsTruthyOpt none then none
           else
             match peeledSuffix ['f', '.', 'a', 'b'] with
             | none => some ['l', 'o', 'g']
             | some p =>
               if p = [] then some ['l', 'o', 'g']
               else if 1 < p.length then some p
               else none) :=
  c5_sanitizeExt ['f', '.', 'a', 'b'] none (by decide)

/-! ### C3: unlink failures during retention -/

/-- C3, amended: one retention run settles as fulfilled whenever the
default mode runs or `readdir` succeeds — regardless of how the individual
`unlinkWithRetry` promises settle, because `Promise.allSettled` absorbs
their rejections — so the sink sees `cleanup-complete` and never an
`error` event for a failed unlink; the final unlink error is only logged
by `unlinkWithRetry` itself.  Rotation is considered successful. -/
theorem c3_unlinkSwallowed (pf : JStr → JStr → Option Int) (count : Nat)
    (removeOtherLogFiles : Bool) (baseFile : JStr)
    (dateFormat extension : Option JStr) (createdFileNames : List JStr)
    (newFileName : JStr) (listingOpt : Option (List JStr))
    (attemptFails : JStr → Nat → Bool) (maxRetries : Nat)
    (h : removeOtherLogFiles = false ∨ ∃ l, listingOpt = some l) :
    rollCleanupEvents (removeOldFilesRun pf count removeOtherLogFiles baseFile
        dateFormat extension createdFileNames newFileName listingOpt
        attemptFails maxRetries)
      = [SinkEvent.cleanupComplete] := by
  rcases h with h | ⟨l, hl⟩
  · subst h
    simp [removeOldFilesRun, rollCleanupEvents]
  · subst hl
    cases removeOtherLogFiles <;> simp [removeOldFilesRun, rollCleanupEvents]

/-- C3, counterexample: a retention run in which the deleted file fails
every one of the 30 unlink attempts: the run still fulfills, its settlement
list records the final unlink rejection, and the emitted event is
`cleanup-complete` — not the `error` event the claim requires. -/
theorem c3_unlinkSwallowed_cex :
    removeOldFilesRun (fun _ _ => none) 1 false ['b'] none none
        [['a'], ['b']] ['c'] none (fun _ _ => true) 30
      = Except.ok (⟨[['a']], [['b'], ['c']]⟩, [Except.error ()])
    ∧ rollCleanupEvents (removeOldFilesRun (fun _ _ => none) 1 false ['b']
        none none [['a'], ['b']] ['c'] none (fun _ _ => true) 30)
      = [SinkEvent.cleanupComplete]
    ∧ SinkEvent.errorEvent ∉
        rollCleanupEvents (removeOldFilesRun (fun _ _ => none) 1 false ['b']
          none none [['a'], ['b']] ['c'] none (fun _ _ => true) 30) := by
  refine ⟨by decide, by decide, by decide⟩

/-- C3, witness: the amended theorem applied to the all-attempts-fail
configuration. -/
theorem c3_unlinkSwallowed_witness :
    rollCleanupEvents (removeOldFilesRun (fun _ _ => none) 1 false ['b']
        none none [['a'], ['b']] ['c'] none (fun _ _ => true) 30)
      = [SinkEvent.cleanupComplete] :=
  c3_unlinkSwallowed (fun _ _ => none) 1 false ['b'] none none
    [['a'], ['b']] ['c'] none (fun _ _ => true) 30 (Or.inl rfl)

/-! ### C7: retention with removeOtherLogFiles -/

theorem foldl_identify_eq_filterMap (pf : JStr → JStr → Option Int)
    (bstr : JStr) (df ext : Option JStr) (l : List JStr)
    (acc : List LogFileInfo) :
    l.foldl (fun acc fileEntry =>
        match identifyLogFile pf fileEntry bstr df ext with
        | some f => acc ++ [f]
        | none => acc) acc
      = acc ++ l.filterMap (fun entry => identifyLogFile pf entry bstr df ext) := by
  induction l generalizing acc with
  | nil => simp
  | cons e rest ih =>
    cases hf : identifyLogFile pf e bstr df ext <;>
      simp [List.foldl_cons, hf, ih]

/-- C7, confirmed: in `removeOtherLogFiles` mode, retention keeps exactly
the directory entries accepted by `identifyLogFile` for the configured
base/date-format/extension, deletes exactly the first `len − count`
entries of a `(fileTime, fileNumber)`-ascending sorted permutation of them
when `len > count` and none otherwise, never touches a non-matching entry
such as `notLogFile`, and leaves `createdFileNames` unmodified. -/
theorem c7_retention (pf : JStr → JStr → Option Int) (count : Nat)
    (baseFile : JStr) (dateFormat extension : Option JStr)
    (createdFileNames : List JStr) (newFileName : JStr)
    (listing : List JStr) :
    (removeOldFiles pf count true baseFile dateFormat extension
        createdFileNames newFileName listing).createdFileNames
      = createdFileNames
    ∧ (∃ sortedFiles : List LogFileInfo,
        sortedFiles.Perm (listing.filterMap (fun entry =>
          identifyLogFile pf entry (extractFileName baseFile) dateFormat extension))
        ∧ List.Sorted infoLe sortedFiles
        ∧ (removeOldFiles pf count true baseFile dateFormat extension
            createdFileNames newFileName listing).deleted
          = (if count < (listing.filterMap (fun entry =>
                identifyLogFile pf entry (extractFileName baseFile) dateFormat
                  extension)).length
             then (sortedFiles.take ((listing.filterMap (fun entry =>
                identifyLogFile pf entry (extractFileName baseFile) dateFormat
                  extension)).length - count)).map (fun f => f.fileName)
             else []))
    ∧ (∀ nm ∈ (removeOldFiles pf count true baseFile dateFormat extension
          createdFileNames newFileName listing).deleted,
        nm ∈ listing
        ∧ identifyLogFile pf nm (extractFileName baseFile) dateFormat extension
            ≠ none) := by
  have hrem : removeOldFiles pf count true baseFile dateFormat extension
      createdFileNames newFileName listing
    = ⟨(if count < (listing.filterMap (fun entry =>
          identifyLogFile pf entry (extractFileName baseFile) dateFormat
            extension)).length
        then ((List.insertionSort infoLe (listing.filterMap (fun entry =>
          identifyLogFile pf entry (extractFileName baseFile) dateFormat
            extension))).take ((listing.filterMap (fun entry =>
          identifyLogFile pf entry (extractFileName baseFile) dateFormat
            extension)).length - count)).map (fun f => f.fileName)
        else []), createdFileNames⟩ := by
    simp only [removeOldFiles, not_true, if_false,
      foldl_identify_eq_filterMap, List.nil_append, gt_iff_lt, ite_false,
      reduceIte]
  refine ⟨by rw [hrem], ?_, ?_⟩
  · refine ⟨List.insertionSort infoLe (listing.filterMap (fun entry =>
      identifyLogFile pf entry (extractFileName baseFile) dateFormat extension)),
      List.perm_insertionSort infoLe _, List.sorted_insertionSort infoLe _, ?_⟩
    rw [hrem]
  · intro nm hnm
    rw [hrem] at hnm
    simp only at hnm
    by_cases hlen : count < (listing.filterMap (fun entry =>
        identifyLogFile pf entry (extractFileName baseFile) dateFormat
          extension)).length
    · rw [if_pos hlen] at hnm
      obtain ⟨i, hi, hnmi⟩ := List.mem_map.mp hnm
      have hi2 : i ∈ List.insertionSort infoLe (listing.filterMap (fun entry =>
          identifyLogFile pf entry (extractFileName baseFile) dateFormat
            extension)) := List.take_subset _ _ hi
      have hi3 : i ∈ listing.filterMap (fun entry =>
          identifyLogFile pf entry (extractFileName baseFile) dateFormat
            extension) := (List.mem_insertionSort infoLe).mp hi2
      obtain ⟨e, he, hide⟩ := List.mem_filterMap.mp hi3
      have hname : i.fileName = e :=
        identify_fileName pf e (extractFileName baseFile) dateFormat extension
          i hide
      subst hnmi
      rw [hname]
      exact ⟨he, by rw [hide]; exact fun hc => Option.noConfusion hc⟩
    · rw [if_neg hlen] at hnm
      exact absurd hnm (List.not_mem_nil nm)

/-- C7, witness: the retention characterisation applied to the concrete
listing of the repository's `removeOtherOldFiles` test (a non-matching
entry plus four matching `log.<t>.<n>` files, `count = 2`): the two oldest
matching entries and only they are deleted. -/
theorem c7_retention_witness :
    (removeOldFiles (fun _ s => if s.length = 1 then some ((decimalValue s : Int)) else none)
        2 true ['l', 'g'] (some ['d']) none [['z']] ['w']
        [['n', 'o', 't'], ['l', 'g', '.', '1', '.', '1'],
         ['l', 'g', '.', '2', '.', '1'], ['l', 'g', '.', '1', '.', '2'],
         ['l', 'g', '.', '3', '.', '1']]).createdFileNames = [['z']]
    ∧ ∀ nm ∈ (removeOldFiles (fun _ s => if s.length = 1 then some ((decimalValue s : Int)) else none)
        2 true ['l', 'g'] (some ['d']) none [['z']] ['w']
        [['n', 'o', 't'], ['l', 'g', '.', '1', '.', '1'],
         ['l', 'g', '.', '2', '.', '1'], ['l', 'g', '.', '1', '.', '2'],
         ['l', 'g', '.', '3', '.', '1']]).deleted,
        nm ∈ [['n', 'o', 't'], ['l', 'g', '.', '1', '.', '1'],
         ['l', 'g', '.', '2', '.', '1'], ['l', 'g', '.', '1', '.', '2'],
         ['l', 'g', '.', '3', '.', '1']] := by
  have h := c7_retention (fun _ s => if s.length = 1 then some ((decimalValue s : Int)) else none)
    2 ['l', 'g'] (some ['d']) none [['z']] ['w']
    [['n', 'o', 't'], ['l', 'g', '.', '1', '.', '1'],
     ['l', 'g', '.', '2', '.', '1'], ['l', 'g', '.', '1', '.', '2'],
     ['l', 'g', '.', '3', '.', '1']]
  exact ⟨h.1, fun nm hnm => (h.2.2 nm hnm).1⟩

/-! ### C9: detectLastNumber ignores zero trailing numbers -/

theorem readFileTrailingNumbers_aux_pos (time : Option Int)
    (birth : JStr → Int) (fileExtension : JStr) :
    ∀ (l : List JStr) (acc : List Nat), (∀ x ∈ acc, 1 ≤ x) →
      ∀ x ∈ l.foldl (fun numbers file =>
          let timeTruthy : Bool := match time with
            | some t => t ≠ 0
            | none => false
          if timeTruthy ∧ ¬ isMatchingTime birth file (time.getD 0) then numbers
          else
            match extractTrailingNumber file fileExtension with
            | some k => if k ≠ 0 then numbers ++ [k] else numbers
            | none => numbers) acc, 1 ≤ x := by
  intro l
  induction l with
  | nil => intro acc hacc x hx; exact hacc x hx
  | cons e rest ih =>
    intro acc hacc x hx
    rw [List.foldl_cons] at hx
    refine ih _ ?_ x hx
    intro y hy
    repeat'
      first
        | split at hy
        | simp only [] at hy
    all_goals
      first
        | exact hacc y hy
        | (rcases List.mem_append.mp hy with hy2 | hy2 <;>
            first
              | exact hacc y hy2
              | (simp at hy2; subst hy2; omega))

theorem readFileTrailingNumbers_aux_zero (time : Option Int)
    (birth : JStr → Int) (fileExtension : JStr) :
    ∀ (l : List JStr) (acc : List Nat),
      (∀ e ∈ l, extractTrailingNumber e fileExtension = none
        ∨ extractTrailingNumber e fileExtension = some 0) →
      l.foldl (fun numbers file =>
          let timeTruthy : Bool := match time with
            | some t => t ≠ 0
            | none => false
          if timeTruthy ∧ ¬ isMatchingTime birth file (time.getD 0) then numbers
          else
            match extractTrailingNumber file fileExtension with
            | some k => if k ≠ 0 then numbers ++ [k] else numbers
            | none => numbers) acc = acc := by
  intro l
  induction l with
  | nil => intro acc _; rfl
  | cons e rest ih =>
    intro acc hz
    rcases hz e (List.mem_cons_self _ _) with hk | hk <;>
      rw [List.foldl_cons] <;>
      simp only [hk, ite_self, ne_eq, not_true_eq_false, if_false, ite_false,
        reduceIte] <;>
      exact ih acc (fun e' he' => hz e' (List.mem_cons_of_mem _ he'))

/-- C9, confirmed: `detectLastNumber` never reports less than 1, and a
directory whose entries all extract either no trailing number or the
trailing number `0` (which is falsy and therefore never pushed) yields
exactly 1 — entries like `file.0` contribute nothing to the maximum. -/
theorem c9_detectLastNumber (listingOpt : Option (List JStr))
    (time : Option Int) (birth : JStr → Int) (fileExtension : JStr) :
    1 ≤ detectLastNumber listingOpt time birth fileExtension
    ∧ (∀ l, listingOpt = some l →
        (∀ e ∈ l, extractTrailingNumber e fileExtension = none
          ∨ extractTrailingNumber e fileExtension = some 0) →
        detectLastNumber listingOpt time birth fileExtension = 1) := by
  constructor
  · cases listingOpt with
    | none => exact le_refl 1
    | some l =>
      show 1 ≤ (List.insertionSort (fun a b : Nat => b ≤ a)
          (readFileTrailingNumbers l time birth fileExtension)).headD 1
      cases hs : List.insertionSort (fun a b : Nat => b ≤ a)
          (readFileTrailingNumbers l time birth fileExtension) with
      | nil => exact le_refl 1
      | cons h t =>
        simp only [List.headD_cons]
        have hmem : h ∈ List.insertionSort (fun a b : Nat => b ≤ a)
            (readFileTrailingNumbers l time birth fileExtension) := by
          rw [hs]
          exact List.mem_cons_self _ _
        have hmem2 : h ∈ readFileTrailingNumbers l time birth fileExtension :=
          (List.mem_insertionSort _).mp hmem
        unfold readFileTrailingNumbers at hmem2
        exact readFileTrailingNumbers_aux_pos time birth fileExtension l [1]
          (by intro x hx; simp at hx; omega) h hmem2
  · intro l hl hz
    subst hl
    show (List.insertionSort (fun a b : Nat => b ≤ a)
        (readFileTrailingNumbers l time birth fileExtension)).headD 1 = 1
    have hz1 : readFileTrailingNumbers l time birth fileExtension = [1] := by
      unfold readFileTrailingNumbers
      exact readFileTrailingNumbers_aux_zero time birth fileExtension l [1] hz
    rw [hz1]
    rfl

/-- C9, witness: the theorem applied to a directory containing only
`file.0`, whose only numbered entry has trailing number 0: the result is
exactly 1 (and at least 1). -/
theorem c9_detectLastNumber_witness :
    1 ≤ detectLastNumber (some [['f', '.', '0']]) none (fun _ => 0) []
    ∧ detectLastNumber (some [['f', '.', '0']]) none (fun _ => 0) [] = 1 := by
  have h := c9_detectLastNumber (some [['f', '.', '0']]) none (fun _ => 0) []
  exact ⟨h.1, h.2 [['f', '.', '0']] rfl (by decide)⟩

/-! ### C8: thunk evaluation at construction -/

/-- C8, amended: constructing the engine with a thunk as the `file` option
invokes the thunk exactly twice — once inside `validateFileName` and once
inside `sanitizeFile` — and every file name is subsequently built from the
sanitized result of the (pure) thunk's value; the thunk is never
re-evaluated for later rotations, which rebuild names from the stored
string.  The original claim said exactly once. -/
theorem c8_thunkTwice (f : Unit → JStr) (extension date : Option JStr)
    (listingOpt : Option (List JStr)) (time : Option Int)
    (birth : JStr → Int) (out : SetupModel)
    (h : pinoRollSetup (FileVal.thunk f) extension date listingOpt time birth
      = Except.ok out) :
    out.thunkCalls = 2
    ∧ ∃ sf, sanitizeFileResolved (f ()) extension = Except.ok sf
        ∧ out.file = sf.1 ∧ out.extension = sf.2
        ∧ out.fileName = buildFileName sf.1 date
            (detectLastNumber listingOpt time birth ((sf.2).getD [])) sf.2 := by
  have hv1 : ∀ c, validateFileName (FileVal.thunk f) = Except.ok c → c = 1 := by
    intro c hc
    unfold validateFileName at hc
    repeat'
      first
        | split at hc
        | simp only [] at hc
    all_goals
      first
        | (injection hc with hc; exact hc.symm)
        | exact Except.noConfusion hc
        | simp_all
  unfold pinoRollSetup at h
  cases hv : validateFileName (FileVal.thunk f) with
  | error e =>
    rw [hv] at h
    exact absurd h (by simp [Bind.bind, Except.bind])
  | ok c =>
    rw [hv] at h
    have hc1 : c = 1 := hv1 c hv
    subst hc1
    cases hs : sanitizeFileResolved (f ()) extension with
    | error e =>
      rw [show sanitizeFile (FileVal.thunk f) extension
          = Except.error e by simp [sanitizeFile, hs, Except.map]] at h
      exact absurd h (by simp [Bind.bind, Except.bind])
    | ok sf =>
      rw [show sanitizeFile (FileVal.thunk f) extension
          = Except.ok (sf, 1) by simp [sanitizeFile, hs, Except.map]] at h
      simp only [Bind.bind, Except.bind, Functor.map, Except.map, Pure.pure,
        Except.pure] at h
      injection h with h
      subst h
      exact ⟨rfl, sf, rfl, rfl, rfl, rfl⟩

/-- C8, counterexample: constructing with the thunk `() => 'l/f'` invokes
it twice, not once as claimed: once for path validation and once for
sanitization. -/
theorem c8_thunkTwice_cex :
    (pinoRollSetup (FileVal.thunk (fun _ => ['l', '/', 'f'])) none none
        (some []) none (fun _ => 0)).map (fun r => r.thunkCalls)
      = Except.ok 2
    ∧ (2 : Nat) ≠ 1 := by
  constructor <;> decide

/-- C8, witness: the amended theorem applied to the concrete thunk
construction. -/
theorem c8_thunkTwice_witness :
    (⟨2, ['l', '/', 'f'], some ['l', 'o', 'g'],
        ['l', '/', 'f', '.', '1', '.', 'l', 'o', 'g']⟩ : SetupModel).thunkCalls = 2
    ∧ ∃ sf, sanitizeFileResolved ((fun _ => ['l', '/', 'f']) ()) none
        = Except.ok sf
        ∧ (⟨2, ['l', '/', 'f'], some ['l', 'o', 'g'],
            ['l', '/', 'f', '.', '1', '.', 'l', 'o', 'g']⟩ : SetupModel).file = sf.1
        ∧ (⟨2, ['l', '/', 'f'], some ['l', 'o', 'g'],
            ['l', '/', 'f', '.', '1', '.', 'l', 'o', 'g']⟩ : SetupModel).extension = sf.2
        ∧ (⟨2, ['l', '/', 'f'], some ['l', 'o', 'g'],
            ['l', '/', 'f', '.', '1', '.', 'l', 'o', 'g']⟩ : SetupModel).fileName
          = buildFileName sf.1 none
              (detectLastNumber (some []) none (fun _ => 0) ((sf.2).getD [])) sf.2 :=
  c8_thunkTwice (fun _ => ['l', '/', 'f']) none none (some []) none
    (fun _ => 0)
    ⟨2, ['l', '/', 'f'], some ['l', 'o', 'g'],
      ['l', '/', 'f', '.', '1', '.', 'l', 'o', 'g']⟩ (by decide)

/-! ### C10: symlink over a non-symlink entry -/

/-- C10, confirmed: when the `current.log` path exists but is not a
symbolic link, `checkSymlink` reports `true` without unlinking it, so the
subsequent `symlink` call fails with `EEXIST` and the pre-existing file is
unchanged; the existing entry is replaced exactly when it is a symlink to
a different basename (same-basename symlinks are left alone, an absent
path is created). -/
theorem c10_symlink (f target : JStr) :
    (checkSymlink FsEntry.file f = (true, FsEntry.file)
      ∧ createSymlinkRun FsEntry.file f
        = (Except.error FsError.eexist, FsEntry.file))
    ∧ createSymlinkRun FsEntry.absent f
        = (Except.ok (), FsEntry.symlinkTo (extractFileName f))
    ∧ (extractFileName target ≠ extractFileName f →
        createSymlinkRun (FsEntry.symlinkTo target) f
          = (Except.ok (), FsEntry.symlinkTo (extractFileName f)))
    ∧ (extractFileName target = extractFileName f →
        createSymlinkRun (FsEntry.symlinkTo target) f
          = (Except.ok (), FsEntry.symlinkTo target)) := by
  refine ⟨⟨rfl, rfl⟩, rfl, ?_, ?_⟩
  · intro h
    simp [createSymlinkRun, checkSymlink, h]
  · intro h
    simp [createSymlinkRun, checkSymlink, h]

/-- C10, witness: the symlink behaviour evaluated at concrete paths: a
regular `current.log` file yields `EEXIST` and survives; a symlink to
another basename is replaced. -/
theorem c10_symlink_witness :
    createSymlinkRun FsEntry.file ['a', '/', 'f']
      = (Except.error FsError.eexist, FsEntry.file)
    ∧ createSymlinkRun (FsEntry.symlinkTo ['o']) ['a', '/', 'f']
      = (Except.ok (), FsEntry.symlinkTo (extractFileName ['a', '/', 'f'])) :=
  ⟨(c10_symlink ['a', '/', 'f'] ['o']).1.2,
   (c10_symlink ['a', '/', 'f'] ['o']).2.2.1 (by decide)⟩

end PinoRoll
